import Mathlib

/-!
# Verification of the schema-migration engine (`database/migration.go`)

Shallow embedding of the migration runner of the `user-management`
repository.  Pure string processing (`splitMigrationContent`,
`parseMigrationFile`, `strconv.Atoi`) is translated into executable Lean
functions over `List Char`; the database is modelled as an explicit
`DBState` (the `public.migrations` ledger plus a clock supplying the
`executed_at` timestamps), and the success of executing a SQL text
against the store is abstracted by an oracle `sqlOk : String → Bool`
(the engine never inspects SQL bodies, it only hands them to the
driver).  `sort.Slice` is modelled as a comparison sort with the same
comparator (`insertionSort`); the comparator ignores `strconv.Atoi`
errors exactly as the Go code does (`vi, _ := strconv.Atoi(...)`).
-/

namespace MigrationEngine

/-! ## Go primitives on `List Char`

`strings.Split` with a one-character separator, `strings.TrimSpace`,
`strings.HasPrefix`, `strings.SplitN (sep, 2)`, `strings.TrimSuffix`,
`filepath.Base` / `filepath.Dir` for separator-normalised paths.
-/

/-- `strings.Split(s, sep)` for a single-character separator: the result
always has one more element than the number of separator occurrences. -/
def splitOnChar (sep : Char) : List Char → List (List Char)
  | [] => [[]]
  | c :: cs =>
    let rest := splitOnChar sep cs
    if c = sep then
      [] :: rest
    else
      match rest with
      | [] => [[c]]
      | y :: ys => (c :: y) :: ys

/-- The white-space predicate of Go `unicode.IsSpace` restricted to the
Latin-1 range (space, tab, newline, vertical tab, form feed, carriage
return, NEL, NBSP), which is what `strings.TrimSpace` strips. -/
def goIsSpace (c : Char) : Bool :=
  c = ' ' || c = '\t' || c = '\n' || c = Char.ofNat 0x0B || c = Char.ofNat 0x0C ||
    c = '\r' || c = Char.ofNat 0x85 || c = Char.ofNat 0xA0

/-- `strings.TrimSpace`. -/
def trimSpace (cs : List Char) : List Char :=
  ((cs.dropWhile goIsSpace).reverse.dropWhile goIsSpace).reverse

/-- `strings.HasPrefix(s, p)`. -/
def hasPrefixCL : List Char → List Char → Bool
  | _, [] => true
  | [], _ :: _ => false
  | c :: cs, p :: ps => c = p && hasPrefixCL cs ps

/-- Split at the first occurrence of `sep`; `none` when `sep` is absent.
`strings.SplitN(s, sep, 2)` returns two parts exactly when this is `some`. -/
def splitFirst (sep : Char) : List Char → Option (List Char × List Char)
  | [] => none
  | c :: cs =>
    if c = sep then
      some ([], cs)
    else
      (splitFirst sep cs).map (fun p => (c :: p.1, p.2))

/-- `strings.TrimSuffix(s, suffix)`. -/
def trimSuffixCL (cs suffix : List Char) : List Char :=
  if suffix.isSuffixOf cs then cs.take (cs.length - suffix.length) else cs

/-- `strings.Join(lines, "\n")` on character lists. -/
def joinLines : List (List Char) → List Char
  | [] => []
  | [l] => l
  | l :: rest => l ++ '\n' :: joinLines rest

/-- `filepath.Base` for a clean path without trailing separator. -/
def baseName (cs : List Char) : List Char :=
  (splitOnChar '/' cs).getLastD []

/-- `filepath.Base(filepath.Dir(path))` for a clean path: the
second-to-last path component (the module subdirectory). -/
def parentDirName (cs : List Char) : List Char :=
  ((splitOnChar '/' cs).dropLast).getLastD (".".data)

/-- `strings.TrimSpace` on `String`. -/
def goTrim (s : String) : String := ⟨trimSpace s.data⟩

/-! ## `strconv.Atoi` -/

/-- Decimal value of a non-empty all-digit character list. -/
def parseDigits (cs : List Char) : Option Nat :=
  if cs ≠ [] ∧ cs.all Char.isDigit then
    some (cs.foldl (fun a c => 10 * a + (c.toNat - 48)) 0)
  else
    none

/-- `strconv.Atoi`: returns the parsed value together with an ok flag.
On a syntax error the value is `0`; on 64-bit range overflow the value is
clamped (Go returns `ErrRange` together with the clamped value, and the
caller of the sort comparator discards the error either way). -/
def goAtoi (s : String) : Int × Bool :=
  let (neg, digits) :=
    match s.data with
    | '+' :: rest => (false, rest)
    | '-' :: rest => (true, rest)
    | cs => (false, cs)
  match parseDigits digits with
  | none => (0, false)
  | some n =>
    if neg then
      if (n : Int) > 2 ^ 63 then (-(2 ^ 63), false) else (-(n : Int), true)
    else
      if (n : Int) > 2 ^ 63 - 1 then (2 ^ 63 - 1, false) else ((n : Int), true)

/-! ## Data model -/

/-- `Migration` struct (migration.go lines 16-23). -/
structure Migration where
  version : String
  description : String
  module : String
  upSQL : String
  downSQL : String
  filePath : String
deriving DecidableEq

/-- One row of the `public.migrations` ledger table. -/
structure LedgerEntry where
  version : String
  description : String
  module : String
  filePath : String
  executedAt : Nat
deriving DecidableEq

/-- The database state visible to the engine: the ledger rows plus the
clock supplying the next `executed_at` timestamp (`CURRENT_TIMESTAMP` is
monotonically increasing within a run). -/
structure DBState where
  ledger : List LedgerEntry
  clock : Nat
deriving DecidableEq

/-- The versions recorded in the ledger, in insertion order. -/
def appliedVersions (s : DBState) : List String :=
  s.ledger.map LedgerEntry.version

/-! ## splitMigrationContent -/

/-- The condition of the first `if` of the scanning loop: the trimmed
line starts with `-- DOWN` or `--DOWN`. -/
def isDownMarkerL (l : List Char) : Bool :=
  hasPrefixCL (trimSpace l) ("-- DOWN".data) || hasPrefixCL (trimSpace l) ("--DOWN".data)

/-- The condition of the second `if` of the scanning loop: the trimmed
line starts with `-- UP` or `--UP`. -/
def isUpMarkerL (l : List Char) : Bool :=
  hasPrefixCL (trimSpace l) ("-- UP".data) || hasPrefixCL (trimSpace l) ("--UP".data)

/-- The line-scanning loop of `splitMigrationContent` (migration.go
lines 225-243), with the two accumulated slices returned; `inDown` is
the `inDownSection` flag. -/
def splitLines (inDown : Bool) : List (List Char) → List (List Char) × List (List Char)
  | [] => ([], [])
  | line :: rest =>
    if isDownMarkerL line then
      splitLines true rest
    else if isUpMarkerL line then
      splitLines false rest
    else
      let p := splitLines inDown rest
      if inDown then (p.1, line :: p.2) else (line :: p.1, p.2)

/-- `splitMigrationContent` (migration.go lines 220-246): split on
`"\n"`, scan with the marker loop starting outside the DOWN section,
re-join both slices with `"\n"`. -/
def splitMigrationContent (content : String) : String × String :=
  let lines := splitOnChar '\n' content.data
  let p := splitLines false lines
  (⟨joinLines p.1⟩, ⟨joinLines p.2⟩)

/-! ## parseMigrationFile -/

/-- `parseMigrationFile` (migration.go lines 184-217) against a
filesystem oracle `fsys : path ↦ content` (`os.ReadFile` fails where
`fsys` is `none`). -/
def parseMigrationFile (fsys : String → Option String) (filePath : String) :
    Except String Migration :=
  match fsys filePath with
  | none => .error "failed to read file"
  | some content =>
    let filename := baseName filePath.data
    match splitFirst '_' filename with
    | none => .error "invalid migration filename format"
    | some parts =>
      let version : String := ⟨parts.1⟩
      let description : String :=
        ⟨(trimSuffixCL parts.2 (".sql".data)).map (fun c => if c = '_' then ' ' else c)⟩
      let p := splitMigrationContent content
      .ok
        { version := version
          description := description
          module := ⟨parentDirName filePath.data⟩
          upSQL := p.1
          downSQL := p.2
          filePath := filePath }

/-! ## The runner

`RunResult` is the outcome of a (possibly partial) run: `ok` carries the
final database state and the list of migration SQL texts executed and
committed; `fail` carries the state persisted at the abort point (every
transaction that did not commit has been rolled back), the SQL committed
before the abort, and the error message.
-/

inductive RunResult where
  | ok (s : DBState) (trace : List String)
  | fail (s : DBState) (trace : List String) (err : String)
deriving DecidableEq

/-- The database state persisted after a run, successful or failed. -/
def RunResult.state : RunResult → DBState
  | .ok s _ => s
  | .fail s _ _ => s

/-- The sort key of the comparator passed to `sort.Slice` (migration.go
lines 53-57): `vi, _ := strconv.Atoi(migrations[i].Version)`, the parse
error being discarded. -/
def sortKey (m : Migration) : Int :=
  (goAtoi m.version).1

/-- The non-strict order induced by the `sort.Slice` comparator
`vi < vj`: the output of a comparison sort is sorted with respect to
this relation. -/
def migLE (a b : Migration) : Prop :=
  sortKey a ≤ sortKey b

instance : DecidableRel migLE := fun a b =>
  inferInstanceAs (Decidable (sortKey a ≤ sortKey b))

instance : IsTotal Migration migLE :=
  ⟨fun a b => Int.le_total (sortKey a) (sortKey b)⟩

instance : IsTrans Migration migLE :=
  ⟨fun _ _ _ hab hbc => le_trans hab hbc⟩

/-- The strict key order; used to show the sorted result is unique when
the keys are pairwise distinct. -/
def migLT (a b : Migration) : Prop :=
  sortKey a < sortKey b

instance : IsAntisymm Migration migLT :=
  ⟨fun _ _ hab hba => absurd hba (not_lt_of_gt hab)⟩

/-- `sort.Slice(migrations, less)` (migration.go lines 52-57), modelled
as a comparison sort with the same comparator. -/
def sortMigrations (migrations : List Migration) : List Migration :=
  List.insertionSort migLE migrations

/-- The ledger row inserted by `executeMigration` (the `INSERT INTO
public.migrations` of lines 278-283, `executed_at` defaulting to the
current clock). -/
def mkEntry (m : Migration) (t : Nat) : LedgerEntry :=
  { version := m.version, description := m.description, module := m.module,
    filePath := m.filePath, executedAt := t }

/-- `executeMigration` (migration.go lines 249-292): skip when the
version is already in the ledger (`SELECT COUNT(*) ... WHERE version`),
otherwise open a transaction, execute `UpSQL` when its trimmed form is
non-empty, insert the ledger row, and commit; on a SQL failure the
deferred `tx.Rollback()` leaves the state untouched. -/
def executeMigration (sqlOk : String → Bool) (migration : Migration) (s : DBState) :
    RunResult :=
  if s.ledger.countP (fun e => e.version == migration.version) > 0 then
    .ok s []
  else
    let committed : List String → RunResult := fun tr =>
      .ok ⟨s.ledger ++ [mkEntry migration s.clock], s.clock + 1⟩ tr
    if goTrim migration.upSQL ≠ "" then
      if sqlOk migration.upSQL then committed [migration.upSQL]
      else .fail s [] "failed to execute migration SQL"
    else
      committed []

/-- The loop of `RunMigrations` (migration.go lines 60-64): execute the
sorted migrations one by one, aborting at the first failure. -/
def runList (sqlOk : String → Bool) : List Migration → DBState → RunResult
  | [], s => .ok s []
  | m :: rest, s =>
    match executeMigration sqlOk m s with
    | .fail s1 tr e =>
      .fail s1 tr ("failed to execute migration " ++ m.version ++ ": " ++ e)
    | .ok s1 tr =>
      match runList sqlOk rest s1 with
      | .ok s2 tr2 => .ok s2 (tr ++ tr2)
      | .fail s2 tr2 e => .fail s2 (tr ++ tr2) e

/-- `RunMigrations` (migration.go lines 40-68) with the corpus already
discovered: sort by the `Atoi` value of `version`, then execute in
order. -/
def RunMigrations (sqlOk : String → Bool) (corpus : List Migration) (s : DBState) :
    RunResult :=
  runList sqlOk (sortMigrations corpus) s

/-- `SELECT ... ORDER BY executed_at DESC LIMIT 1` (migration.go lines
298-303): the ledger row with the greatest `executed_at`.  Ties are
broken towards the earlier row; the engine never produces two rows with
equal timestamps (`clock` is strictly increasing). -/
def latestEntry : List LedgerEntry → Option LedgerEntry
  | [] => none
  | e :: es =>
    some (es.foldl (fun best x => if x.executedAt > best.executedAt then x else best) e)

/-- `Rollback` (migration.go lines 295-344): take the most recently
executed ledger row, re-parse its file for the DOWN section, execute it
in a transaction when its trimmed form is non-empty, delete the ledger
row by version, commit.  A SQL failure rolls the transaction back,
leaving the ledger untouched. -/
def Rollback (sqlOk : String → Bool) (fsys : String → Option String) (s : DBState) :
    RunResult :=
  match latestEntry s.ledger with
  | none => .ok s []
  | some e =>
    match parseMigrationFile fsys e.filePath with
    | .error _ => .fail s [] "failed to parse migration file for rollback"
    | .ok migration =>
      let deleted : DBState :=
        ⟨s.ledger.filter (fun x => x.version != e.version), s.clock⟩
      if goTrim migration.downSQL ≠ "" then
        if sqlOk migration.downSQL then .ok deleted [migration.downSQL]
        else .fail s [] "failed to execute rollback SQL"
      else
        .ok deleted []

/-- The versions of the sorted corpus, in execution order. -/
def sortedVersions (corpus : List Migration) : List String :=
  (sortMigrations corpus).map Migration.version

/-- A line that is neither a DOWN marker nor an UP marker and therefore
lands in the current section verbatim. -/
def plainLine (l : List Char) : Bool :=
  !isDownMarkerL l && !isUpMarkerL l

/-- Join a list of lines into a `String` (inverse of the line split for
newline-free lines). -/
def strOfLines (ls : List (List Char)) : String :=
  ⟨joinLines ls⟩

/-! ## Concrete fixtures used by the witnesses and counterexamples -/

/-- An oracle under which every SQL text executes successfully. -/
def okAllSql : String → Bool := fun _ => true

/-- An oracle that fails exactly the statement `BROKEN SQL;`. -/
def okExceptBroken : String → Bool := fun q => q != "BROKEN SQL;"

def wMig1 : Migration :=
  { version := "001", description := "create users", module := "user_management",
    upSQL := "CREATE TABLE users;", downSQL := "DROP TABLE users;",
    filePath := "database/migrations/user_management/001_create_users.sql" }

def wMig2 : Migration :=
  { version := "002", description := "create roles", module := "user_management",
    upSQL := "CREATE TABLE roles;", downSQL := "DROP TABLE roles;",
    filePath := "database/migrations/user_management/002_create_roles.sql" }

def wMig3 : Migration :=
  { version := "003", description := "seed data", module := "cross_module",
    upSQL := "INSERT INTO users VALUES (1);", downSQL := "DELETE FROM users;",
    filePath := "database/migrations/cross_module/003_seed_data.sql" }

/-- `wMig1` with a failing forward script. -/
def wMig1Broken : Migration :=
  { wMig1 with upSQL := "BROKEN SQL;" }

/-- The empty database (no ledger rows, clock at zero). -/
def emptyDB : DBState := ⟨[], 0⟩

/-- The state produced by applying `wMig1` then `wMig2` to `emptyDB`. -/
def wDB12 : DBState := ⟨[mkEntry wMig1 0, mkEntry wMig2 1], 2⟩

/-- A ledger holding only version `002`: version `002` applied while its
predecessor `001` is absent (`001` added to the corpus after the fact). -/
def wDBonly2 : DBState := ⟨[mkEntry wMig2 0], 1⟩

/-- A migration whose version string is not a parseable integer. -/
def badVersionMig : Migration :=
  { version := "abc", description := "bad", module := "user_management",
    upSQL := "CREATE TABLE x;", downSQL := "", filePath := "database/migrations/user_management/abc_bad.sql" }

/-- Two files carrying the same version number in different modules. -/
def dupA : Migration :=
  { version := "007", description := "alpha", module := "user_management",
    upSQL := "CREATE TABLE alpha;", downSQL := "",
    filePath := "database/migrations/user_management/007_alpha.sql" }

def dupB : Migration :=
  { version := "007", description := "beta", module := "cross_module",
    upSQL := "CREATE TABLE beta;", downSQL := "",
    filePath := "database/migrations/cross_module/007_beta.sql" }

/-- A filesystem oracle holding the two files used by the rollback
witnesses: `003` (applied first) and `001` (applied later, out of
band), the DOWN script of `001` being the one the rollback must run. -/
def wFs : String → Option String := fun p =>
  if p = "database/migrations/user_management/001_create_users.sql" then
    some "-- UP\nCREATE TABLE users;\n-- DOWN\nDROP TABLE users;"
  else if p = "database/migrations/cross_module/003_seed_data.sql" then
    some "-- UP\nINSERT INTO users VALUES (1);\n-- DOWN\nDELETE FROM users;"
  else
    none

/-- Ledger where version `003` was applied first (timestamp 0) and the
lower-numbered `001` was applied afterwards (timestamp 1). -/
def wDBoutOfOrder : DBState := ⟨[mkEntry wMig3 0, mkEntry wMig1 1], 2⟩

/-- An oracle failing exactly the DOWN script of `wMig1`. -/
def okExceptDropUsers : String → Bool := fun q => q != "DROP TABLE users;"

/-! ## Basic lemmas about the runner -/

theorem countP_version_pos_iff (s : DBState) (v : String) :
    0 < s.ledger.countP (fun e => e.version == v) ↔ v ∈ appliedVersions s := by
  rw [List.countP_pos_iff]
  constructor
  · rintro ⟨e, he, hv⟩
    exact List.mem_map.2 ⟨e, he, by simpa using hv⟩
  · intro h
    rcases List.mem_map.1 h with ⟨e, he, hv⟩
    exact ⟨e, he, by simp [hv]⟩

/-- An already-recorded version is skipped: no error, no SQL, state
untouched. -/
theorem executeMigration_skip (sqlOk : String → Bool) (mig : Migration) (s : DBState)
    (h : mig.version ∈ appliedVersions s) :
    executeMigration sqlOk mig s = .ok s [] := by
  have hc : 0 < s.ledger.countP (fun e => e.version == mig.version) :=
    (countP_version_pos_iff s mig.version).2 h
  unfold executeMigration
  rw [if_pos hc]

/-- A successful `executeMigration` either skipped (state unchanged, the
version already present) or appended exactly one ledger row for the
migration. -/
theorem executeMigration_ok_cases (sqlOk : String → Bool) (mig : Migration)
    (s s1 : DBState) (tr : List String)
    (h : executeMigration sqlOk mig s = .ok s1 tr) :
    (s1 = s ∧ tr = [] ∧ mig.version ∈ appliedVersions s) ∨
      s1 = ⟨s.ledger ++ [mkEntry mig s.clock], s.clock + 1⟩ := by
  unfold executeMigration at h
  by_cases hc : 0 < s.ledger.countP (fun e => e.version == mig.version)
  · rw [if_pos hc] at h
    cases h
    exact Or.inl ⟨rfl, rfl, (countP_version_pos_iff s mig.version).1 hc⟩
  · rw [if_neg hc] at h
    simp only at h
    by_cases hb : goTrim mig.upSQL ≠ ""
    · rw [if_pos hb] at h
      by_cases hq : sqlOk mig.upSQL
      · rw [if_pos hq] at h
        cases h
        exact Or.inr rfl
      · rw [if_neg hq] at h
        cases h
    · rw [if_neg hb] at h
      cases h
      exact Or.inr rfl

/-- A failed `executeMigration` rolled its transaction back: the
persisted state is exactly the pre-state and nothing was committed. -/
theorem executeMigration_fail_cases (sqlOk : String → Bool) (mig : Migration)
    (s s1 : DBState) (tr : List String) (e : String)
    (h : executeMigration sqlOk mig s = .fail s1 tr e) :
    s1 = s ∧ tr = [] ∧ e = "failed to execute migration SQL" ∧
      mig.version ∉ appliedVersions s ∧ goTrim mig.upSQL ≠ "" ∧ sqlOk mig.upSQL = false := by
  unfold executeMigration at h
  by_cases hc : 0 < s.ledger.countP (fun e => e.version == mig.version)
  · rw [if_pos hc] at h
    cases h
  · rw [if_neg hc] at h
    simp only at h
    by_cases hb : goTrim mig.upSQL ≠ ""
    · rw [if_pos hb] at h
      by_cases hq : sqlOk mig.upSQL
      · rw [if_pos hq] at h
        cases h
      · rw [if_neg hq] at h
        cases h
        refine ⟨rfl, rfl, rfl, ?_, hb, by simpa using hq⟩
        exact fun hmem => hc ((countP_version_pos_iff s mig.version).2 hmem)
    · rw [if_neg hb] at h
      cases h

/-- `runList` on a cons, both steps succeeding. -/
theorem runList_cons_ok_ok (sqlOk : String → Bool) (m : Migration) (rest : List Migration)
    (s s1 s2 : DBState) (tr1 tr2 : List String)
    (hex : executeMigration sqlOk m s = .ok s1 tr1)
    (hrl : runList sqlOk rest s1 = .ok s2 tr2) :
    runList sqlOk (m :: rest) s = .ok s2 (tr1 ++ tr2) := by
  simp [runList, hex, hrl]

/-- `runList` on a cons: head succeeds, tail aborts. -/
theorem runList_cons_ok_fail (sqlOk : String → Bool) (m : Migration) (rest : List Migration)
    (s s1 s2 : DBState) (tr1 tr2 : List String) (e : String)
    (hex : executeMigration sqlOk m s = .ok s1 tr1)
    (hrl : runList sqlOk rest s1 = .fail s2 tr2 e) :
    runList sqlOk (m :: rest) s = .fail s2 (tr1 ++ tr2) e := by
  simp [runList, hex, hrl]

/-- `runList` on a cons whose head fails: the run aborts at once with
the pre-step state, the remaining migrations are never attempted. -/
theorem runList_cons_fail (sqlOk : String → Bool) (m : Migration) (rest : List Migration)
    (s s1 : DBState) (tr1 : List String) (e : String)
    (hex : executeMigration sqlOk m s = .fail s1 tr1 e) :
    runList sqlOk (m :: rest) s =
      .fail s1 tr1 ("failed to execute migration " ++ m.version ++ ": " ++ e) := by
  simp [runList, hex]

/-- Versions present in the ledger stay present, and every migration of
a successfully executed list ends up recorded. -/
theorem runList_ok_mem (sqlOk : String → Bool) :
    ∀ (ms : List Migration) (s s1 : DBState) (tr : List String),
      runList sqlOk ms s = .ok s1 tr →
      (∀ v ∈ appliedVersions s, v ∈ appliedVersions s1) ∧
        ∀ m ∈ ms, m.version ∈ appliedVersions s1 := by
  intro ms
  induction ms with
  | nil =>
    intro s s1 tr h
    cases h
    exact ⟨fun v hv => hv, fun m hm => absurd hm (List.not_mem_nil m)⟩
  | cons m rest ih =>
    intro s s1 tr h
    rcases hex : executeMigration sqlOk m s with ⟨s', tr'⟩ | ⟨s', tr', e⟩
    · rcases hrl : runList sqlOk rest s' with ⟨s2, tr2⟩ | ⟨s2, tr2, e2⟩
      · rw [runList_cons_ok_ok sqlOk m rest s s' s2 tr' tr2 hex hrl] at h
        cases h
        have hmono : ∀ v ∈ appliedVersions s, v ∈ appliedVersions s' := by
          rcases executeMigration_ok_cases sqlOk m s s' tr' hex with ⟨rfl, _, _⟩ | rfl
          · exact fun v hv => hv
          · intro v hv
            simp only [appliedVersions, List.map_append, List.mem_append] at hv ⊢
            exact Or.inl hv
        have hmem : m.version ∈ appliedVersions s' := by
          rcases executeMigration_ok_cases sqlOk m s s' tr' hex with ⟨rfl, _, hmem⟩ | rfl
          · exact hmem
          · simp [appliedVersions, mkEntry]
        have hrest := ih s' _ _ hrl
        refine ⟨fun v hv => hrest.1 v (hmono v hv), ?_⟩
        intro x hx
        rcases List.mem_cons.1 hx with rfl | hx
        · exact hrest.1 x.version hmem
        · exact hrest.2 x hx
      · rw [runList_cons_ok_fail sqlOk m rest s s' s2 tr' tr2 e2 hex hrl] at h
        cases h
    · rw [runList_cons_fail sqlOk m rest s s' tr' e hex] at h
      cases h

/-- Running a list whose versions are all recorded already is a no-op:
every migration is skipped, no SQL is issued, the state is unchanged. -/
theorem runList_all_applied (sqlOk : String → Bool) :
    ∀ (ms : List Migration) (s : DBState),
      (∀ m ∈ ms, m.version ∈ appliedVersions s) →
      runList sqlOk ms s = .ok s [] := by
  intro ms
  induction ms with
  | nil => intro s _; rfl
  | cons m rest ih =>
    intro s h
    have hskip := executeMigration_skip sqlOk m s (h m (List.mem_cons_self m rest))
    have hrest := ih s (fun x hx => h x (List.mem_cons_of_mem m hx))
    have := runList_cons_ok_ok sqlOk m rest s s s [] [] hskip hrest
    simpa using this

/-- Inversion of a successful cons run. -/
theorem runList_cons_ok_inv (sqlOk : String → Bool) (m : Migration) (rest : List Migration)
    (s s1 : DBState) (tr : List String)
    (h : runList sqlOk (m :: rest) s = .ok s1 tr) :
    ∃ s' tr' tr2, executeMigration sqlOk m s = .ok s' tr' ∧
      runList sqlOk rest s' = .ok s1 tr2 ∧ tr = tr' ++ tr2 := by
  rcases hex : executeMigration sqlOk m s with ⟨s', tr'⟩ | ⟨s', tr', e⟩
  · rcases hrl : runList sqlOk rest s' with ⟨s2, tr2⟩ | ⟨s2, tr2, e2⟩
    · rw [runList_cons_ok_ok sqlOk m rest s s' s2 tr' tr2 hex hrl] at h
      cases h
      exact ⟨s', tr', tr2, by simp [hex], hrl, rfl⟩

    · rw [runList_cons_ok_fail sqlOk m rest s s' s2 tr' tr2 e2 hex hrl] at h
      cases h
  · rw [runList_cons_fail sqlOk m rest s s' tr' e hex] at h
    cases h

/-- Sequencing of `runList` over an append whose first part succeeds. -/
theorem runList_append_of_ok (sqlOk : String → Bool) :
    ∀ (ms1 : List Migration) (s s1 : DBState) (tr1 : List String),
      runList sqlOk ms1 s = .ok s1 tr1 →
      ∀ (ms2 : List Migration),
        (∀ s2 tr2, runList sqlOk ms2 s1 = .ok s2 tr2 →
          runList sqlOk (ms1 ++ ms2) s = .ok s2 (tr1 ++ tr2)) ∧
        (∀ s2 tr2 e, runList sqlOk ms2 s1 = .fail s2 tr2 e →
          runList sqlOk (ms1 ++ ms2) s = .fail s2 (tr1 ++ tr2) e) := by
  intro ms1
  induction ms1 with
  | nil =>
    intro s s1 tr1 h ms2
    cases h
    exact ⟨fun s2 tr2 h2 => by simpa using h2, fun s2 tr2 e h2 => by simpa using h2⟩
  | cons m rest ih =>
    intro s s1 tr1 h ms2
    rcases runList_cons_ok_inv sqlOk m rest s s1 tr1 h with ⟨s', tr', tr2', hex, hrl, rfl⟩
    have hih := ih s' s1 tr2' hrl ms2
    constructor
    · intro s2 tr2 h2
      have := runList_cons_ok_ok sqlOk m (rest ++ ms2) s s' s2 tr' (tr2' ++ tr2) hex
        (hih.1 s2 tr2 h2)
      simpa [List.append_assoc] using this
    · intro s2 tr2 e h2
      have := runList_cons_ok_fail sqlOk m (rest ++ ms2) s s' s2 tr' (tr2' ++ tr2) e hex
        (hih.2 s2 tr2 e h2)
      simpa [List.append_assoc] using this

/-- If every migration of `ms1` is already applied, executing
`ms1 ++ ms2` is the same as executing `ms2` alone. -/
theorem runList_append_skip (sqlOk : String → Bool) (ms1 ms2 : List Migration) (s : DBState)
    (h : ∀ m ∈ ms1, m.version ∈ appliedVersions s) :
    runList sqlOk (ms1 ++ ms2) s = runList sqlOk ms2 s := by
  have h1 := runList_all_applied sqlOk ms1 s h
  have hap := runList_append_of_ok sqlOk ms1 s s [] h1 ms2
  rcases hr : runList sqlOk ms2 s with ⟨s2, tr2⟩ | ⟨s2, tr2, e⟩
  · simpa using hap.1 s2 tr2 hr
  · simpa using hap.2 s2 tr2 e hr

/-- When the migration at some position fails, the whole run aborts
there: the persisted state is the one before the failing transaction
and nothing after the failing migration is attempted. -/
theorem runList_abort (sqlOk : String → Bool) (ms1 : List Migration) (m : Migration)
    (ms2 : List Migration) (s s1 : DBState) (tr1 : List String) (e : String)
    (h1 : runList sqlOk ms1 s = .ok s1 tr1)
    (h2 : executeMigration sqlOk m s1 = .fail s1 [] e) :
    runList sqlOk (ms1 ++ m :: ms2) s =
      .fail s1 tr1 ("failed to execute migration " ++ m.version ++ ": " ++ e) := by
  have hcons := runList_cons_fail sqlOk m ms2 s1 s1 [] e h2
  have := (runList_append_of_ok sqlOk ms1 s s1 tr1 h1 (m :: ms2)).2 s1 []
    ("failed to execute migration " ++ m.version ++ ": " ++ e) hcons
  simpa using this

/-- `runList` threads its state through a successful head step. -/
theorem runList_cons_state (sqlOk : String → Bool) (m : Migration) (rest : List Migration)
    (s s' : DBState) (tr' : List String)
    (hex : executeMigration sqlOk m s = .ok s' tr') :
    (runList sqlOk (m :: rest) s).state = (runList sqlOk rest s').state := by
  rcases hrl : runList sqlOk rest s' with ⟨s2, tr2⟩ | ⟨s2, tr2, e2⟩
  · rw [runList_cons_ok_ok sqlOk m rest s s' s2 tr' tr2 hex hrl]
    rfl
  · rw [runList_cons_ok_fail sqlOk m rest s s' s2 tr' tr2 e2 hex hrl]
    rfl

/-- Executing a fresh migration whose SQL the store accepts commits the
migration transaction: the ledger gains exactly its row. -/
theorem executeMigration_fresh_ok (sqlOk : String → Bool) (mig : Migration) (s : DBState)
    (hfresh : mig.version ∉ appliedVersions s)
    (hsql : sqlOk mig.upSQL = true) :
    ∃ tr, executeMigration sqlOk mig s =
        .ok ⟨s.ledger ++ [mkEntry mig s.clock], s.clock + 1⟩ tr ∧
      (goTrim mig.upSQL ≠ "" → tr = [mig.upSQL]) ∧ (goTrim mig.upSQL = "" → tr = []) := by
  have hc : ¬ 0 < s.ledger.countP (fun e => e.version == mig.version) := fun hp =>
    hfresh ((countP_version_pos_iff s mig.version).1 hp)
  unfold executeMigration
  rw [if_neg hc]
  by_cases hb : goTrim mig.upSQL ≠ ""
  · refine ⟨[mig.upSQL], ?_, fun _ => rfl, fun habs => absurd habs hb⟩
    simp only [if_pos hb, hsql, if_pos]
  · refine ⟨[], ?_, fun habs => absurd habs hb, fun _ => rfl⟩
    simp only [if_neg hb]

/-- Executing a fresh list of migrations whose versions are pairwise
distinct leaves the ledger extended by some initial segment of the
list's versions (all of them on success, those before the failure
otherwise). -/
theorem runList_fresh_initial_segment (sqlOk : String → Bool) :
    ∀ (ms : List Migration) (s : DBState),
      (∀ m ∈ ms, m.version ∉ appliedVersions s) →
      (ms.map Migration.version).Nodup →
      ∃ n, appliedVersions (runList sqlOk ms s).state
          = appliedVersions s ++ (ms.map Migration.version).take n := by
  intro ms
  induction ms with
  | nil =>
    intro s _ _
    exact ⟨0, by simp [runList, RunResult.state]⟩
  | cons m rest ih =>
    intro s hfresh hnd
    rw [List.map_cons] at hnd
    have hnd' : m.version ∉ rest.map Migration.version := (List.nodup_cons.1 hnd).1
    have hndrest : (rest.map Migration.version).Nodup := (List.nodup_cons.1 hnd).2
    rcases hex : executeMigration sqlOk m s with ⟨s', tr'⟩ | ⟨s', tr', e⟩
    · rcases executeMigration_ok_cases sqlOk m s s' tr' hex with ⟨_, _, hmem⟩ | heq
      · exact absurd hmem (hfresh m (List.mem_cons_self m rest))
      · have happ : appliedVersions s' = appliedVersions s ++ [m.version] := by
          rw [heq]
          simp [appliedVersions, mkEntry]
        have hfresh' : ∀ x ∈ rest, x.version ∉ appliedVersions s' := by
          intro x hx hmm
          rw [happ] at hmm
          rcases List.mem_append.1 hmm with hmm | hmm
          · exact hfresh x (List.mem_cons_of_mem m hx) hmm
          · have : x.version = m.version := by simpa using hmm
            exact hnd' (this ▸ List.mem_map_of_mem Migration.version hx)
        rcases ih s' hfresh' hndrest with ⟨n, hn⟩
        refine ⟨n + 1, ?_⟩
        rw [runList_cons_state sqlOk m rest s s' tr' hex, hn, happ]
        simp [List.take_succ_cons]
    · obtain ⟨heq, htr, _, _, _, _⟩ := executeMigration_fail_cases sqlOk m s s' tr' e hex
      subst heq
      subst htr
      refine ⟨0, ?_⟩
      rw [runList_cons_fail sqlOk m rest s' s' [] e hex]
      simp [RunResult.state]

/-- When the store accepts every forward script, `runList` never fails,
and a duplicate-free ledger stays duplicate-free: a migration whose
version is already recorded — in particular the second file of a version
collision — is skipped rather than re-applied. -/
theorem runList_accepted_all_ok (sqlOk : String → Bool) :
    ∀ (ms : List Migration) (s : DBState),
      (∀ m ∈ ms, sqlOk m.upSQL = true) →
      (appliedVersions s).Nodup →
      ∃ s1 tr, runList sqlOk ms s = .ok s1 tr ∧ (appliedVersions s1).Nodup := by
  intro ms
  induction ms with
  | nil => intro s _ hnd; exact ⟨s, [], rfl, hnd⟩
  | cons m rest ih =>
    intro s hsql hnd
    by_cases hmem : m.version ∈ appliedVersions s
    · have hskip := executeMigration_skip sqlOk m s hmem
      rcases ih s (fun x hx => hsql x (List.mem_cons_of_mem m hx)) hnd with ⟨s1, tr, hr, hnd1⟩
      exact ⟨s1, tr,
        by simpa using runList_cons_ok_ok sqlOk m rest s s s1 [] tr hskip hr, hnd1⟩
    · rcases executeMigration_fresh_ok sqlOk m s hmem (hsql m (List.mem_cons_self m rest))
        with ⟨tr0, hex, -, -⟩
      have hnd' : (appliedVersions ⟨s.ledger ++ [mkEntry m s.clock], s.clock + 1⟩).Nodup := by
        have happ : appliedVersions ⟨s.ledger ++ [mkEntry m s.clock], s.clock + 1⟩
            = appliedVersions s ++ [m.version] := by
          simp [appliedVersions, mkEntry]
        rw [happ]
        refine List.nodup_append.2 ⟨hnd, List.nodup_singleton _, ?_⟩
        intro a ha hb
        rw [List.mem_singleton] at hb
        subst hb
        exact hmem ha
      rcases ih _ (fun x hx => hsql x (List.mem_cons_of_mem m hx)) hnd'
        with ⟨s1, tr, hr, hnd1⟩
      exact ⟨s1, tr0 ++ tr, runList_cons_ok_ok sqlOk m rest s _ s1 tr0 tr hex hr, hnd1⟩

/-! ## The `ORDER BY executed_at DESC LIMIT 1` fold -/

/-- The binary step of the `latestEntry` fold. -/
def laterOf (best x : LedgerEntry) : LedgerEntry :=
  if x.executedAt > best.executedAt then x else best

theorem latestEntry_eq_foldl (l : List LedgerEntry) :
    latestEntry l = match l with
      | [] => none
      | e :: es => some (es.foldl laterOf e) := by
  cases l <;> rfl

theorem foldl_laterOf_mem :
    ∀ (es : List LedgerEntry) (b : LedgerEntry), es.foldl laterOf b ∈ b :: es := by
  intro es
  induction es with
  | nil => intro b; exact List.mem_cons_self b []
  | cons x es ih =>
    intro b
    rw [List.foldl_cons]
    rcases List.mem_cons.1 (ih (laterOf b x)) with h | h
    · rw [h]
      unfold laterOf
      by_cases hc : x.executedAt > b.executedAt
      · rw [if_pos hc]
        exact List.mem_cons_of_mem b (List.mem_cons_self x es)
      · rw [if_neg hc]
        exact List.mem_cons_self b (x :: es)
    · exact List.mem_cons_of_mem b (List.mem_cons_of_mem x h)

theorem foldl_laterOf_ge :
    ∀ (es : List LedgerEntry) (b : LedgerEntry),
      b.executedAt ≤ (es.foldl laterOf b).executedAt ∧
        ∀ x ∈ es, x.executedAt ≤ (es.foldl laterOf b).executedAt := by
  intro es
  induction es with
  | nil => intro b; exact ⟨le_refl _, fun x hx => absurd hx (List.not_mem_nil x)⟩
  | cons x es ih =>
    intro b
    rw [List.foldl_cons]
    have hstep : b.executedAt ≤ (laterOf b x).executedAt ∧
        x.executedAt ≤ (laterOf b x).executedAt := by
      unfold laterOf
      by_cases hc : x.executedAt > b.executedAt
      · rw [if_pos hc]
        exact ⟨le_of_lt hc, le_refl _⟩
      · rw [if_neg hc]
        exact ⟨le_refl _, le_of_not_lt hc⟩
    have hih := ih (laterOf b x)
    refine ⟨le_trans hstep.1 hih.1, ?_⟩
    intro y hy
    rcases List.mem_cons.1 hy with rfl | hy
    · exact le_trans hstep.2 hih.1
    · exact hih.2 y hy

/-- When a ledger row strictly dominates every other row's
`executed_at`, the `LIMIT 1` query returns exactly that row. -/
theorem latestEntry_eq_of_max (l : List LedgerEntry) (e : LedgerEntry)
    (hmem : e ∈ l) (hmax : ∀ x ∈ l, x ≠ e → x.executedAt < e.executedAt) :
    latestEntry l = some e := by
  cases l with
  | nil => exact absurd hmem (List.not_mem_nil e)
  | cons a es =>
    rw [latestEntry_eq_foldl]
    show some (es.foldl laterOf a) = some e
    have hrmem : es.foldl laterOf a ∈ a :: es := foldl_laterOf_mem es a
    have hge : e.executedAt ≤ (es.foldl laterOf a).executedAt := by
      rcases List.mem_cons.1 hmem with heq2 | hm
      · rw [heq2]
        exact (foldl_laterOf_ge es a).1
      · exact (foldl_laterOf_ge es a).2 e hm
    by_cases heq : es.foldl laterOf a = e
    · rw [heq]
    · exact absurd (lt_of_lt_of_le (hmax _ hrmem heq) hge) (lt_irrefl _)

/-! ## The sort -/

/-- The sorted corpus is sorted for the comparator's order. -/
theorem sortMigrations_pairwise_le (corpus : List Migration) :
    (sortMigrations corpus).Pairwise migLE :=
  List.sorted_insertionSort migLE corpus

/-- The sorted corpus is a permutation of the discovered corpus. -/
theorem sortMigrations_perm (corpus : List Migration) :
    (sortMigrations corpus).Perm corpus :=
  List.perm_insertionSort migLE corpus

/-- With pairwise-distinct sort keys the sorted corpus is even strictly
sorted. -/
theorem sortMigrations_pairwise_lt (corpus : List Migration)
    (hnd : (corpus.map sortKey).Nodup) :
    (sortMigrations corpus).Pairwise migLT := by
  have hs : (sortMigrations corpus).Pairwise migLE := sortMigrations_pairwise_le corpus
  have hnds : ((sortMigrations corpus).map sortKey).Nodup :=
    (((sortMigrations_perm corpus).map sortKey).nodup_iff).2 hnd
  have hne : (sortMigrations corpus).Pairwise (fun a b => sortKey a ≠ sortKey b) :=
    List.pairwise_map.1 hnds
  exact (hs.and hne).imp fun h => lt_of_le_of_ne h.1 h.2

/-- Any two orderings of the same corpus with pairwise-distinct sort
keys sort to the same list: discovery order is irrelevant. -/
theorem sortMigrations_perm_eq (corpus discovered : List Migration)
    (hnd : (corpus.map sortKey).Nodup) (hperm : discovered.Perm corpus) :
    sortMigrations discovered = sortMigrations corpus := by
  have hndd : (discovered.map sortKey).Nodup := ((hperm.map sortKey).nodup_iff).2 hnd
  refine List.eq_of_perm_of_sorted (r := migLT) ?_ ?_ ?_
  · exact (sortMigrations_perm discovered).trans (hperm.trans (sortMigrations_perm corpus).symm)
  · exact sortMigrations_pairwise_lt discovered hndd
  · exact sortMigrations_pairwise_lt corpus hnd

/-- Distinct sort keys give distinct version strings. -/
theorem nodup_versions_of_nodup_sortKey (l : List Migration)
    (hnd : (l.map sortKey).Nodup) : (l.map Migration.version).Nodup := by
  have : l.map sortKey = (l.map Migration.version).map (fun v => (goAtoi v).1) := by
    rw [List.map_map]
    rfl
  rw [this] at hnd
  exact hnd.of_map

/-! ## Line splitting and the marker scan -/

theorem splitOnChar_no_sep (sep : Char) :
    ∀ (a : List Char), sep ∉ a → splitOnChar sep a = [a] := by
  intro a
  induction a with
  | nil => intro _; rfl
  | cons c cs ih =>
    intro h
    have hc : ¬ c = sep := fun hcs => h (hcs ▸ List.mem_cons_self c cs)
    have hcs : sep ∉ cs := fun hm => h (List.mem_cons_of_mem c hm)
    rw [splitOnChar]
    simp only [if_neg hc, ih hcs]

theorem splitOnChar_append_cons (sep : Char) :
    ∀ (a b : List Char), sep ∉ a →
      splitOnChar sep (a ++ sep :: b) = a :: splitOnChar sep b := by
  intro a
  induction a with
  | nil =>
    intro b _
    rw [List.nil_append, splitOnChar]
    simp
  | cons c cs ih =>
    intro b h
    have hc : ¬ c = sep := fun hcs => h (hcs ▸ List.mem_cons_self c cs)
    have hcs : sep ∉ cs := fun hm => h (List.mem_cons_of_mem c hm)
    rw [List.cons_append, splitOnChar]
    simp only [if_neg hc, ih b hcs]

/-- On newline-free lines, splitting undoes joining. -/
theorem splitOnChar_joinLines :
    ∀ (ls : List (List Char)), ls ≠ [] → (∀ l ∈ ls, '\n' ∉ l) →
      splitOnChar '\n' (joinLines ls) = ls := by
  intro ls
  induction ls with
  | nil => intro h _; exact absurd rfl h
  | cons l rest ih =>
    intro _ hnl
    cases rest with
    | nil =>
      rw [joinLines]
      exact splitOnChar_no_sep '\n' l (hnl l (List.mem_cons_self l []))
    | cons l2 rest2 =>
      rw [joinLines, splitOnChar_append_cons '\n' l (joinLines (l2 :: rest2))
        (hnl l (List.mem_cons_self l (l2 :: rest2)))]
      rw [ih (List.cons_ne_nil l2 rest2) (fun x hx => hnl x (List.mem_cons_of_mem l hx))]
      exact List.cons_ne_nil l2 rest2

theorem splitLines_down_cons (b : Bool) (l : List Char) (rest : List (List Char))
    (h : isDownMarkerL l = true) :
    splitLines b (l :: rest) = splitLines true rest := by
  rw [splitLines, if_pos h]

theorem splitLines_up_cons (b : Bool) (l : List Char) (rest : List (List Char))
    (hd : isDownMarkerL l = false) (hu : isUpMarkerL l = true) :
    splitLines b (l :: rest) = splitLines false rest := by
  rw [splitLines]
  simp [hd, hu]

/-- Plain lines scanned in the forward phase are copied to the forward
slice, in order, ahead of whatever the remaining lines produce. -/
theorem splitLines_plain_up :
    ∀ (ls rest : List (List Char)), (∀ l ∈ ls, plainLine l = true) →
      splitLines false (ls ++ rest) =
        (ls ++ (splitLines false rest).1, (splitLines false rest).2) := by
  intro ls
  induction ls with
  | nil => intro rest _; simp
  | cons l ls2 ih =>
    intro rest h
    have hp := h l (List.mem_cons_self l ls2)
    have hd : isDownMarkerL l = false := by
      revert hp
      unfold plainLine
      cases isDownMarkerL l <;> simp
    have hu : isUpMarkerL l = false := by
      revert hp
      unfold plainLine
      cases isUpMarkerL l <;> simp
    rw [List.cons_append, splitLines]
    simp only [hd, hu, Bool.false_eq_true, if_false, if_neg]
    rw [ih rest (fun x hx => h x (List.mem_cons_of_mem l hx))]
    simp

/-- Plain lines scanned in the reverse phase are copied to the reverse
slice, in order, ahead of whatever the remaining lines produce. -/
theorem splitLines_plain_down :
    ∀ (ls rest : List (List Char)), (∀ l ∈ ls, plainLine l = true) →
      splitLines true (ls ++ rest) =
        ((splitLines true rest).1, ls ++ (splitLines true rest).2) := by
  intro ls
  induction ls with
  | nil => intro rest _; simp
  | cons l ls2 ih =>
    intro rest h
    have hp := h l (List.mem_cons_self l ls2)
    have hd : isDownMarkerL l = false := by
      revert hp
      unfold plainLine
      cases isDownMarkerL l <;> simp
    have hu : isUpMarkerL l = false := by
      revert hp
      unfold plainLine
      cases isUpMarkerL l <;> simp
    rw [List.cons_append, splitLines]
    simp only [hd, hu, Bool.false_eq_true, if_false, if_neg]
    rw [ih rest (fun x hx => h x (List.mem_cons_of_mem l hx))]
    simp

/-- Corollary of `splitLines_plain_up` at the end of the scan. -/
theorem splitLines_plain_up_nil (ls : List (List Char))
    (h : ∀ l ∈ ls, plainLine l = true) :
    splitLines false ls = (ls, []) := by
  have := splitLines_plain_up ls [] h
  simpa [splitLines] using this

/-- Corollary of `splitLines_plain_down` at the end of the scan. -/
theorem splitLines_plain_down_nil (ls : List (List Char))
    (h : ∀ l ∈ ls, plainLine l = true) :
    splitLines true ls = ([], ls) := by
  have := splitLines_plain_down ls [] h
  simpa [splitLines] using this

/-- `splitMigrationContent` on a joined list of newline-free lines is
the joined marker scan of those lines. -/
theorem splitMigrationContent_lines (ls : List (List Char)) (h : ls ≠ [])
    (hn : ∀ l ∈ ls, '\n' ∉ l) :
    splitMigrationContent (strOfLines ls)
      = (⟨joinLines (splitLines false ls).1⟩, ⟨joinLines (splitLines false ls).2⟩) := by
  unfold splitMigrationContent strOfLines
  rw [show (String.mk (joinLines ls)).data = joinLines ls from rfl,
    splitOnChar_joinLines ls h hn]

/-! ## Claim theorems -/

/-- **C1.** Apply-all is idempotent: a migration whose version is
already present in the ledger is skipped with no error, no state change
and no SQL issued; consequently, when a run of apply-all completes
successfully, running apply-all again against the same corpus returns
the very same ledger state and executes zero additional migration SQL. -/
theorem apply_all_idempotent (sqlOk : String → Bool) (corpus : List Migration)
    (s s1 t : DBState) (tr : List String) (mig : Migration)
    (hmem : mig.version ∈ appliedVersions t)
    (hrun : RunMigrations sqlOk corpus s = .ok s1 tr) :
    executeMigration sqlOk mig t = .ok t [] ∧
      RunMigrations sqlOk corpus s1 = .ok s1 [] := by
  refine ⟨executeMigration_skip sqlOk mig t hmem, ?_⟩
  have h := (runList_ok_mem sqlOk (sortMigrations corpus) s s1 tr hrun).2
  exact runList_all_applied sqlOk (sortMigrations corpus) s1 h

/-- Witness for C1: applying the two-migration corpus to the empty
database and then re-running it. -/
theorem apply_all_idempotent_witness :
    executeMigration okAllSql wMig1 wDB12 = .ok wDB12 [] ∧
      RunMigrations okAllSql [wMig2, wMig1] wDB12 = .ok wDB12 [] :=
  apply_all_idempotent okAllSql [wMig2, wMig1] emptyDB wDB12 wDB12
    ["CREATE TABLE users;", "CREATE TABLE roles;"] wMig1 (by decide) (by decide)

/-- **C2 (amended).** Provided the ledger before the run is itself an
initial segment of the sorted corpus (in particular when it is empty),
the applied versions after any run — successful or failed — are again an
initial segment of the sorted corpus; and whenever a migration's SQL
fails, its transaction is rolled back (the persisted state is exactly
the state before that migration) and the run aborts there, so the
migrations after the failing one are never attempted. -/
theorem apply_all_initial_segment (sqlOk : String → Bool) (corpus : List Migration)
    (s : DBState) (k : Nat)
    (hnd : (corpus.map sortKey).Nodup)
    (hk : appliedVersions s = (sortedVersions corpus).take k) :
    (∃ n, appliedVersions (RunMigrations sqlOk corpus s).state
        = (sortedVersions corpus).take n) ∧
      ∀ ms1 m ms2 s1 tr1 e, sortMigrations corpus = ms1 ++ m :: ms2 →
        runList sqlOk ms1 s = .ok s1 tr1 →
        executeMigration sqlOk m s1 = .fail s1 [] e →
        RunMigrations sqlOk corpus s =
          .fail s1 tr1 ("failed to execute migration " ++ m.version ++ ": " ++ e) := by
  constructor
  · have hsplit : sortMigrations corpus
        = (sortMigrations corpus).take k ++ (sortMigrations corpus).drop k :=
      (List.take_append_drop k (sortMigrations corpus)).symm
    have hndv : (sortedVersions corpus).Nodup := by
      have := nodup_versions_of_nodup_sortKey corpus hnd
      exact (((sortMigrations_perm corpus).map Migration.version).nodup_iff).2 this
    have hmap_take : ((sortMigrations corpus).take k).map Migration.version
        = (sortedVersions corpus).take k := by
      rw [List.map_take]
      rfl
    have hmap_drop : ((sortMigrations corpus).drop k).map Migration.version
        = (sortedVersions corpus).drop k := by
      rw [List.map_drop]
      rfl
    have hskip : ∀ m ∈ (sortMigrations corpus).take k, m.version ∈ appliedVersions s := by
      intro m hm
      rw [hk, ← hmap_take]
      exact List.mem_map_of_mem Migration.version hm
    have hfresh : ∀ m ∈ (sortMigrations corpus).drop k, m.version ∉ appliedVersions s := by
      intro m hm hmem
      rw [hk] at hmem
      have hdv : m.version ∈ (sortedVersions corpus).drop k := by
        rw [← hmap_drop]
        exact List.mem_map_of_mem Migration.version hm
      have hndsplit := (List.take_append_drop k (sortedVersions corpus)) ▸ hndv
      rcases (List.nodup_append.1 hndsplit) with ⟨-, -, hdisj⟩
      exact hdisj hmem hdv
    have hnddrop : (((sortMigrations corpus).drop k).map Migration.version).Nodup := by
      rw [hmap_drop]
      exact hndv.sublist (List.drop_sublist k (sortedVersions corpus))
    have hrun : RunMigrations sqlOk corpus s
        = runList sqlOk ((sortMigrations corpus).drop k) s := by
      show runList sqlOk (sortMigrations corpus) s = _
      conv_lhs => rw [hsplit]
      exact runList_append_skip sqlOk _ _ s hskip
    rcases runList_fresh_initial_segment sqlOk ((sortMigrations corpus).drop k) s
      hfresh hnddrop with ⟨n, hn⟩
    refine ⟨k + n, ?_⟩
    rw [hrun, hn, hk, hmap_drop, List.take_add]
  · intro ms1 m ms2 s1 tr1 e hsplit h1 h2
    show runList sqlOk (sortMigrations corpus) s = _
    rw [hsplit]
    exact runList_abort sqlOk ms1 m ms2 s s1 tr1 e h1 h2

/-- Witness for C2 (amended) at the empty initial ledger. -/
theorem apply_all_initial_segment_witness :
    (∃ n, appliedVersions (RunMigrations okAllSql [wMig2, wMig1] emptyDB).state
        = (sortedVersions [wMig2, wMig1]).take n) ∧
      ∀ ms1 m ms2 s1 tr1 e, sortMigrations [wMig2, wMig1] = ms1 ++ m :: ms2 →
        runList okAllSql ms1 emptyDB = .ok s1 tr1 →
        executeMigration okAllSql m s1 = .fail s1 [] e →
        RunMigrations okAllSql [wMig2, wMig1] emptyDB =
          .fail s1 tr1 ("failed to execute migration " ++ m.version ++ ": " ++ e) :=
  apply_all_initial_segment okAllSql [wMig2, wMig1] emptyDB 0 (by decide) (by decide)

/-- Counterexample to C2 as stated: version `002` was applied while
`001` was not (the lower-numbered migration joined the corpus later, as
§4.3 step 5 of the specification allows).  The run of the corpus
`[001 (failing), 002]` aborts on `001`, and the applied set after the
run is `{002}` — not an initial segment of the sorted corpus
`[001, 002]`: it contains a version with an unapplied predecessor. -/
theorem apply_all_initial_segment_cex :
    RunMigrations okExceptBroken [wMig1Broken, wMig2] wDBonly2 =
      .fail wDBonly2 [] "failed to execute migration 001: failed to execute migration SQL" ∧
    appliedVersions wDBonly2 = ["002"] ∧
    sortedVersions [wMig1Broken, wMig2] = ["001", "002"] ∧
    ∀ n : Nat, appliedVersions wDBonly2 ≠ (sortedVersions [wMig1Broken, wMig2]).take n := by
  refine ⟨by decide, by decide, by decide, ?_⟩
  intro n
  rcases n with _ | _ | n
  · decide
  · decide
  · rw [show sortedVersions [wMig1Broken, wMig2] = ["001", "002"] by decide,
      List.take_of_length_le (by simp)]
    decide

/-- **C3.** Apply-all sorts the discovered corpus ascending by the
integer value of the version string before executing anything: whenever
the versions have pairwise-distinct integer values, the executed
sequence is sorted for the comparator's order, is a permutation of the
corpus, and is the same no matter in which order discovery presented the
files. -/
theorem apply_all_executes_in_version_order (sqlOk : String → Bool)
    (corpus discovered : List Migration) (s : DBState)
    (hnd : (corpus.map sortKey).Nodup)
    (hperm : discovered.Perm corpus) :
    (sortMigrations corpus).Pairwise migLE ∧
      (sortMigrations corpus).Perm corpus ∧
      RunMigrations sqlOk discovered s = runList sqlOk (sortMigrations corpus) s := by
  refine ⟨sortMigrations_pairwise_le corpus, sortMigrations_perm corpus, ?_⟩
  show runList sqlOk (sortMigrations discovered) s = _
  rw [sortMigrations_perm_eq corpus discovered hnd hperm]

/-- Witness for C3: the corpus `["003","001","002"]` of the
specification, discovered in a different order, still executes as
`001, 002, 003`. -/
theorem apply_all_executes_in_version_order_witness :
    (sortMigrations [wMig3, wMig1, wMig2]).Pairwise migLE ∧
      (sortMigrations [wMig3, wMig1, wMig2]).Perm [wMig3, wMig1, wMig2] ∧
      RunMigrations okAllSql [wMig2, wMig3, wMig1] emptyDB =
        runList okAllSql (sortMigrations [wMig3, wMig1, wMig2]) emptyDB :=
  apply_all_executes_in_version_order okAllSql [wMig3, wMig1, wMig2]
    [wMig2, wMig3, wMig1] emptyDB (by decide) (by decide)

/-- **C4.** When the DOWN SQL of the rollback target fails to execute,
the rollback transaction is rolled back, the error is surfaced, and the
persisted state is exactly the pre-rollback state: the ledger entry is
not removed. -/
theorem rollback_failure_preserves_ledger (sqlOk : String → Bool)
    (fsys : String → Option String) (s : DBState) (e : LedgerEntry) (mig : Migration)
    (hlatest : latestEntry s.ledger = some e)
    (hparse : parseMigrationFile fsys e.filePath = .ok mig)
    (hnb : goTrim mig.downSQL ≠ "")
    (hfail : sqlOk mig.downSQL = false) :
    Rollback sqlOk fsys s = .fail s [] "failed to execute rollback SQL" := by
  unfold Rollback
  rw [hlatest]
  simp only [hparse, if_pos hnb, hfail, Bool.false_eq_true, if_false]

/-- Witness for C4: a one-entry ledger whose DOWN script the store
rejects; the rollback fails and the ledger still holds the entry. -/
theorem rollback_failure_preserves_ledger_witness :
    Rollback okExceptDropUsers wFs ⟨[mkEntry wMig1 0], 1⟩ =
      .fail ⟨[mkEntry wMig1 0], 1⟩ [] "failed to execute rollback SQL" :=
  rollback_failure_preserves_ledger okExceptDropUsers wFs ⟨[mkEntry wMig1 0], 1⟩
    (mkEntry wMig1 0)
    { version := "001", description := "create users", module := "user_management",
      upSQL := "CREATE TABLE users;", downSQL := "DROP TABLE users;",
      filePath := "database/migrations/user_management/001_create_users.sql" }
    (by decide) (by rfl) (by decide) (by decide)

/-- **C5.** Rollback targets the ledger entry with the greatest
`executed_at` timestamp, not the greatest version number: when one entry
strictly dominates all others in `executed_at`, the `LIMIT 1` query
returns it, and a successful rollback deletes precisely its version from
the ledger. -/
theorem rollback_selects_latest_executed (sqlOk : String → Bool)
    (fsys : String → Option String) (s : DBState) (e : LedgerEntry) (mig : Migration)
    (hmem : e ∈ s.ledger)
    (hmax : ∀ x ∈ s.ledger, x ≠ e → x.executedAt < e.executedAt)
    (hparse : parseMigrationFile fsys e.filePath = .ok mig)
    (hsql : sqlOk mig.downSQL = true) :
    latestEntry s.ledger = some e ∧
      ∃ tr, Rollback sqlOk fsys s =
        .ok ⟨s.ledger.filter (fun x => x.version != e.version), s.clock⟩ tr := by
  have hlatest := latestEntry_eq_of_max s.ledger e hmem hmax
  refine ⟨hlatest, ?_⟩
  unfold Rollback
  rw [hlatest]
  simp only [hparse]
  by_cases hb : goTrim mig.downSQL ≠ ""
  · exact ⟨[mig.downSQL], by simp only [if_pos hb, hsql, if_pos]⟩
  · exact ⟨[], by simp only [if_neg hb]⟩

/-- Witness for C5: version `003` applied at time 0, the lower-numbered
`001` applied at time 1; rollback removes `001`, keeping `003`. -/
theorem rollback_selects_latest_executed_witness :
    latestEntry wDBoutOfOrder.ledger = some (mkEntry wMig1 1) ∧
      ∃ tr, Rollback okAllSql wFs wDBoutOfOrder =
        .ok ⟨wDBoutOfOrder.ledger.filter
              (fun x => x.version != (mkEntry wMig1 1).version), wDBoutOfOrder.clock⟩ tr :=
  rollback_selects_latest_executed okAllSql wFs wDBoutOfOrder (mkEntry wMig1 1)
    { version := "001", description := "create users", module := "user_management",
      upSQL := "CREATE TABLE users;", downSQL := "DROP TABLE users;",
      filePath := "database/migrations/user_management/001_create_users.sql" }
    (by decide) (by decide) (by rfl) (by decide)

/-- **C6 (amended).** A migration whose version string is not a
parseable integer is not rejected: the comparator discards the
`strconv.Atoi` error (such a version gets sort value 0), and the
migration is executed and recorded like any other — no
`VersionFormatError` exists in the runner. -/
theorem nonnumeric_version_still_executed (sqlOk : String → Bool) (mig : Migration)
    (s : DBState)
    (_hbad : (goAtoi mig.version).2 = false)
    (hfresh : mig.version ∉ appliedVersions s)
    (hsql : sqlOk mig.upSQL = true) :
    ∃ tr, executeMigration sqlOk mig s =
        .ok ⟨s.ledger ++ [mkEntry mig s.clock], s.clock + 1⟩ tr ∧
      mig.version ∈ appliedVersions ⟨s.ledger ++ [mkEntry mig s.clock], s.clock + 1⟩ := by
  rcases executeMigration_fresh_ok sqlOk mig s hfresh hsql with ⟨tr, hex, -, -⟩
  exact ⟨tr, hex, by simp [appliedVersions, mkEntry]⟩

/-- Witness for C6 (amended): version `"abc"` is executed and
recorded. -/
theorem nonnumeric_version_still_executed_witness :
    ∃ tr, executeMigration okAllSql badVersionMig emptyDB =
        .ok ⟨emptyDB.ledger ++ [mkEntry badVersionMig emptyDB.clock], emptyDB.clock + 1⟩ tr ∧
      badVersionMig.version ∈
        appliedVersions ⟨emptyDB.ledger ++ [mkEntry badVersionMig emptyDB.clock],
          emptyDB.clock + 1⟩ :=
  nonnumeric_version_still_executed okAllSql badVersionMig emptyDB
    (by decide) (by decide) (by decide)

/-- Counterexample to C6 as stated: apply-all on a corpus containing the
unparseable version `"abc"` does not fail before executing any
migration — it completes successfully, executing that migration's SQL
and recording its version. -/
theorem nonnumeric_version_cex :
    (goAtoi "abc").2 = false ∧
    RunMigrations okAllSql [badVersionMig] emptyDB =
      .ok ⟨[mkEntry badVersionMig 0], 1⟩ ["CREATE TABLE x;"] := by decide

/-- **C9 (amended).** The runner performs no version-collision check:
whenever every forward script is accepted by the store, apply-all
returns success for every corpus — duplicated version numbers included —
and the ledger never gains two rows with the same version, because the
second file carrying an already-recorded version is silently skipped. -/
theorem collision_not_refused (sqlOk : String → Bool) (corpus : List Migration)
    (s : DBState)
    (hsql : ∀ m ∈ corpus, sqlOk m.upSQL = true)
    (hnd : (appliedVersions s).Nodup) :
    ∃ s1 tr, RunMigrations sqlOk corpus s = .ok s1 tr ∧ (appliedVersions s1).Nodup := by
  have hsql' : ∀ m ∈ sortMigrations corpus, sqlOk m.upSQL = true := fun m hm =>
    hsql m ((sortMigrations_perm corpus).mem_iff.1 hm)
  exact runList_accepted_all_ok sqlOk (sortMigrations corpus) s hsql' hnd

/-- Witness for C9 (amended): the duplicated-version corpus
`[007_alpha, 007_beta]` runs to successful completion with a
duplicate-free ledger. -/
theorem collision_not_refused_witness :
    ∃ s1 tr, RunMigrations okAllSql [dupA, dupB] emptyDB = .ok s1 tr ∧
      (appliedVersions s1).Nodup :=
  collision_not_refused okAllSql [dupA, dupB] emptyDB (by decide) (by decide)

/-- Counterexample to C9 as stated: two files carry version `007` in
different modules, yet apply-all does not refuse — it succeeds, applies
the first file and silently skips the second, leaving a single `007`
ledger row. -/
theorem version_collision_cex :
    RunMigrations okAllSql [dupA, dupB] emptyDB =
      .ok ⟨[mkEntry dupA 0], 1⟩ ["CREATE TABLE alpha;"] := by decide

/-- **C7 (amended).** Marker matching is case-sensitive: an uppercase
`-- DOWN` line begins the reverse section, but a line `-- down` in any
other letter case is ordinary content — it does not begin the reverse
section and stays in the forward body. -/
theorem marker_case_sensitivity (ls1 ls2 : List (List Char))
    (h1 : ∀ l ∈ ls1, plainLine l = true ∧ '\n' ∉ l)
    (h2 : ∀ l ∈ ls2, plainLine l = true ∧ '\n' ∉ l) :
    splitMigrationContent (strOfLines (ls1 ++ ("-- DOWN".data :: ls2)))
      = (⟨joinLines ls1⟩, ⟨joinLines ls2⟩) ∧
    splitMigrationContent (strOfLines (ls1 ++ ("-- down".data :: ls2)))
      = (strOfLines (ls1 ++ ("-- down".data :: ls2)), "") := by
  constructor
  · have hn : ∀ l ∈ ls1 ++ ("-- DOWN".data :: ls2), '\n' ∉ l := by
      intro l hl
      rcases List.mem_append.1 hl with hl | hl
      · exact (h1 l hl).2
      · rcases List.mem_cons.1 hl with rfl | hl
        · decide
        · exact (h2 l hl).2
    rw [splitMigrationContent_lines _ (by simp) hn]
    rw [splitLines_plain_up ls1 ("-- DOWN".data :: ls2) (fun l hl => (h1 l hl).1)]
    rw [splitLines_down_cons false ("-- DOWN".data) ls2 (by decide)]
    rw [splitLines_plain_down_nil ls2 (fun l hl => (h2 l hl).1)]
    simp
  · have hplain : ∀ l ∈ ls1 ++ ("-- down".data :: ls2), plainLine l = true := by
      intro l hl
      rcases List.mem_append.1 hl with hl | hl
      · exact (h1 l hl).1
      · rcases List.mem_cons.1 hl with rfl | hl
        · decide
        · exact (h2 l hl).1
    have hn : ∀ l ∈ ls1 ++ ("-- down".data :: ls2), '\n' ∉ l := by
      intro l hl
      rcases List.mem_append.1 hl with hl | hl
      · exact (h1 l hl).2
      · rcases List.mem_cons.1 hl with rfl | hl
        · decide
        · exact (h2 l hl).2
    rw [splitMigrationContent_lines _ (by simp) hn]
    rw [splitLines_plain_up_nil _ hplain]
    rfl

/-- Witness for C7 (amended): `-- DOWN` splits, `-- down` does not. -/
theorem marker_case_sensitivity_witness :
    splitMigrationContent
        (strOfLines (["CREATE TABLE t;".data] ++ ("-- DOWN".data :: ["DROP TABLE t;".data])))
      = (⟨joinLines ["CREATE TABLE t;".data]⟩, ⟨joinLines ["DROP TABLE t;".data]⟩) ∧
    splitMigrationContent
        (strOfLines (["CREATE TABLE t;".data] ++ ("-- down".data :: ["DROP TABLE t;".data])))
      = (strOfLines (["CREATE TABLE t;".data] ++ ("-- down".data :: ["DROP TABLE t;".data])), "") :=
  marker_case_sensitivity ["CREATE TABLE t;".data] ["DROP TABLE t;".data]
    (by decide) (by decide)

/-- Counterexample to C7 as stated: with a lowercase `-- down` marker
the reverse section stays empty — the whole file, marker line included,
remains forward content, while the claim demands the reverse section
`DROP TABLE t;`. -/
theorem marker_lowercase_cex :
    splitMigrationContent "CREATE TABLE t;\n-- down\nDROP TABLE t;"
      = ("CREATE TABLE t;\n-- down\nDROP TABLE t;", "") ∧
    ("" : String) ≠ "DROP TABLE t;" := by decide

/-- **C8 (amended).** With several alternating UP/DOWN blocks, the
reverse section used for rollback is the concatenation of all DOWN
blocks in file order — not only the last contiguous DOWN block. -/
theorem down_sections_concatenated (d1 u d2 : List (List Char))
    (hd1 : ∀ l ∈ d1, plainLine l = true ∧ '\n' ∉ l)
    (hu : ∀ l ∈ u, plainLine l = true ∧ '\n' ∉ l)
    (hd2 : ∀ l ∈ d2, plainLine l = true ∧ '\n' ∉ l) :
    splitMigrationContent
        (strOfLines ("-- DOWN".data :: (d1 ++ ("-- UP".data :: (u ++ ("-- DOWN".data :: d2))))))
      = (⟨joinLines u⟩, ⟨joinLines (d1 ++ d2)⟩) := by
  have hn : ∀ l ∈ "-- DOWN".data :: (d1 ++ ("-- UP".data :: (u ++ ("-- DOWN".data :: d2)))),
      '\n' ∉ l := by
    intro l hl
    rcases List.mem_cons.1 hl with rfl | hl
    · decide
    rcases List.mem_append.1 hl with hl | hl
    · exact (hd1 l hl).2
    rcases List.mem_cons.1 hl with rfl | hl
    · decide
    rcases List.mem_append.1 hl with hl | hl
    · exact (hu l hl).2
    rcases List.mem_cons.1 hl with rfl | hl
    · decide
    · exact (hd2 l hl).2
  rw [splitMigrationContent_lines _ (by simp) hn]
  rw [splitLines_down_cons false ("-- DOWN".data) _ (by decide)]
  rw [splitLines_plain_down d1 _ (fun l hl => (hd1 l hl).1)]
  rw [splitLines_up_cons true ("-- UP".data) _ (by decide) (by decide)]
  rw [splitLines_plain_up u _ (fun l hl => (hu l hl).1)]
  rw [splitLines_down_cons false ("-- DOWN".data) d2 (by decide)]
  rw [splitLines_plain_down_nil d2 (fun l hl => (hd2 l hl).1)]
  simp

/-- Witness for C8 (amended) at the two-block file
`-- DOWN / A; / -- UP / X; / -- DOWN / B;`. -/
theorem down_sections_concatenated_witness :
    splitMigrationContent
        (strOfLines ("-- DOWN".data ::
          (["A;".data] ++ ("-- UP".data :: (["X;".data] ++ ("-- DOWN".data :: ["B;".data]))))))
      = (⟨joinLines ["X;".data]⟩, ⟨joinLines (["A;".data] ++ ["B;".data])⟩) :=
  down_sections_concatenated ["A;".data] ["X;".data] ["B;".data]
    (by decide) (by decide) (by decide)

/-- Counterexample to C8 as stated: for the file
`-- DOWN / A; / -- UP / X; / -- DOWN / B;` the reverse section is
`A;` followed by `B;` — both DOWN blocks — whereas the claim says it
should be only the last block `B;`. -/
theorem down_last_block_cex :
    splitMigrationContent "-- DOWN\nA;\n-- UP\nX;\n-- DOWN\nB;" = ("X;", "A;\nB;") ∧
    ("A;\nB;" : String) ≠ "B;" := by decide

/-- **C10.** Marker detection is a prefix match on the trimmed line:
every line whose trimmed form merely starts with the DOWN marker text
(such as `-- DOWNTIME note`) switches scanning to the reverse section
and is excluded from both bodies, and every line whose trimmed form
merely starts with the UP marker text (such as
`-- UPDATE existing rows`) resets scanning to the forward section and is
likewise excluded from both bodies. -/
theorem marker_prefix_match_consumes_lines (ls1 ls2 : List (List Char)) (ld lu : List Char)
    (hld : isDownMarkerL ld = true) (hldn : '\n' ∉ ld)
    (hlu : isUpMarkerL lu = true) (hlud : isDownMarkerL lu = false) (hlun : '\n' ∉ lu)
    (h1 : ∀ l ∈ ls1, plainLine l = true ∧ '\n' ∉ l)
    (h2 : ∀ l ∈ ls2, plainLine l = true ∧ '\n' ∉ l) :
    splitMigrationContent (strOfLines (ls1 ++ (ld :: ls2)))
      = (⟨joinLines ls1⟩, ⟨joinLines ls2⟩) ∧
    splitMigrationContent (strOfLines (ls1 ++ (lu :: ls2)))
      = (⟨joinLines (ls1 ++ ls2)⟩, "") := by
  constructor
  · have hn : ∀ l ∈ ls1 ++ (ld :: ls2), '\n' ∉ l := by
      intro l hl
      rcases List.mem_append.1 hl with hl | hl
      · exact (h1 l hl).2
      · rcases List.mem_cons.1 hl with rfl | hl
        · exact hldn
        · exact (h2 l hl).2
    rw [splitMigrationContent_lines _ (by simp) hn]
    rw [splitLines_plain_up ls1 (ld :: ls2) (fun l hl => (h1 l hl).1)]
    rw [splitLines_down_cons false ld ls2 hld]
    rw [splitLines_plain_down_nil ls2 (fun l hl => (h2 l hl).1)]
    simp
  · have hn : ∀ l ∈ ls1 ++ (lu :: ls2), '\n' ∉ l := by
      intro l hl
      rcases List.mem_append.1 hl with hl | hl
      · exact (h1 l hl).2
      · rcases List.mem_cons.1 hl with rfl | hl
        · exact hlun
        · exact (h2 l hl).2
    rw [splitMigrationContent_lines _ (by simp) hn]
    rw [splitLines_plain_up ls1 (lu :: ls2) (fun l hl => (h1 l hl).1)]
    rw [splitLines_up_cons false lu ls2 hlud hlu]
    rw [splitLines_plain_up_nil ls2 (fun l hl => (h2 l hl).1)]
    simp
    rfl

/-- Witness for C10: the ordinary-looking comment lines
`-- DOWNTIME note` and `-- UPDATE existing rows` are consumed as
markers. -/
theorem marker_prefix_match_consumes_lines_witness :
    splitMigrationContent
        (strOfLines (["CREATE TABLE t;".data] ++ ("-- DOWNTIME note".data :: ["DROP TABLE t;".data])))
      = (⟨joinLines ["CREATE TABLE t;".data]⟩, ⟨joinLines ["DROP TABLE t;".data]⟩) ∧
    splitMigrationContent
        (strOfLines (["CREATE TABLE t;".data] ++ ("-- UPDATE existing rows".data :: ["DROP TABLE t;".data])))
      = (⟨joinLines (["CREATE TABLE t;".data] ++ ["DROP TABLE t;".data])⟩, "") :=
  marker_prefix_match_consumes_lines ["CREATE TABLE t;".data] ["DROP TABLE t;".data]
    ("-- DOWNTIME note".data) ("-- UPDATE existing rows".data)
    (by decide) (by decide) (by decide) (by decide) (by decide) (by decide) (by decide)

end MigrationEngine
